import Mathlib

/-!
Verification of the Toniebox personalized-story generator.

The Python sources are shallowly embedded: each relevant Python function is
translated into an executable Lean definition (dictionaries become structures,
`date.today()` and `uuid.uuid4()` become explicit parameters, Python `int`
becomes `Int`, strings become `String` or `List Char`), and the behavioural
claims about the program are proved as theorems over those definitions.
-/

set_option maxHeartbeats 1000000
set_option maxRecDepth 16000

/-! ### Rate limiter (src/rate_limiter.py) -/

/-- Maximum stories per user per day (module constant `MAX_STORIES_PER_DAY`). -/
def MAX_STORIES_PER_DAY : Int := 10

/-- Session rate-limit record: the state dictionary
`{session_id, stories_generated_today, last_generation_date}`.
Dates are ISO-format strings, as produced by `date.today().isoformat()`. -/
structure SessionState where
  session_id : String
  stories_generated_today : Int
  last_generation_date : String
deriving DecidableEq, Repr

namespace RateLimiter

/-- Embedding of `RateLimiter.get_initial_state`; the fresh `uuid.uuid4()`
string and today's ISO date are passed in explicitly. -/
def get_initial_state (session_id : String) (today : String) : SessionState :=
  { session_id := session_id
    stories_generated_today := 0
    last_generation_date := today }

/-- Embedding of `RateLimiter.check_and_update`.  `today` stands for
`date.today().isoformat()` and `fresh_id` for the uuid drawn when the input
state is `None`.  Returns `(allowed, remaining, message, updated_state)`. -/
def check_and_update (state : Option SessionState) (today : String)
    (fresh_id : String) : Bool × Int × String × SessionState :=
  let s0 := match state with
    | none => get_initial_state fresh_id today
    | some s => s
  let s1 := if s0.last_generation_date ≠ today then
      { s0 with stories_generated_today := 0, last_generation_date := today }
    else s0
  let stories_today := s1.stories_generated_today
  if stories_today ≥ MAX_STORIES_PER_DAY then
    (false, 0,
      "You\x27ve created " ++ toString MAX_STORIES_PER_DAY ++
        " stories today! Come back tomorrow for more magical adventures.",
      s1)
  else
    (true, MAX_STORIES_PER_DAY - stories_today - 1,
      "Story generated! You have " ++
        toString (MAX_STORIES_PER_DAY - stories_today - 1) ++
        " stories remaining today.",
      { s1 with stories_generated_today := stories_today + 1 })

/-- Embedding of `RateLimiter.get_remaining`. -/
def get_remaining (state : Option SessionState) (today : String) : Int :=
  match state with
  | none => MAX_STORIES_PER_DAY
  | some s =>
    if s.last_generation_date ≠ today then MAX_STORIES_PER_DAY
    else max 0 (MAX_STORIES_PER_DAY - s.stories_generated_today)

end RateLimiter

/-! ### Name cleaning in `generate_story_and_audio` (app.py) -/

/-- Embedding of the name-cleaning step of `generate_story_and_audio`:
`"".join(c for c in child_name if c.isalpha() or c in " -'")`.
`Char.isAlpha` models the ASCII fragment of Python `str.isalpha`. -/
def clean_name (child_name : List Char) : List Char :=
  child_name.filter (fun c => c.isAlpha || c = ' ' || c = '-' || c = '\x27')

/-! ### Theorems for the rate-limiter claims -/

/-- C1: `check_and_update` resets the counter to 0 and the stored date to
today whenever the stored date differs from today; after that reset, with
`base` the post-reset counter, it refuses (allowed = false, remaining = 0, no
increment) exactly when `base` has reached `MAX_STORIES_PER_DAY`, and
otherwise allows and increments the counter by exactly one. -/
theorem check_and_update_spec (s : SessionState) (today fid : String)
    (base : Int)
    (hbase : base = if s.last_generation_date = today
      then s.stories_generated_today else 0) :
    (RateLimiter.check_and_update (some s) today fid).2.2.2.last_generation_date
        = today ∧
    ((RateLimiter.check_and_update (some s) today fid).1 = true ↔
        base < MAX_STORIES_PER_DAY) ∧
    (MAX_STORIES_PER_DAY ≤ base →
      (RateLimiter.check_and_update (some s) today fid).1 = false ∧
      (RateLimiter.check_and_update (some s) today fid).2.1 = 0 ∧
      (RateLimiter.check_and_update (some s) today fid).2.2.2.stories_generated_today
        = base) ∧
    (base < MAX_STORIES_PER_DAY →
      (RateLimiter.check_and_update (some s) today fid).1 = true ∧
      (RateLimiter.check_and_update (some s) today fid).2.1
        = MAX_STORIES_PER_DAY - base - 1 ∧
      (RateLimiter.check_and_update (some s) today fid).2.2.2.stories_generated_today
        = base + 1) := by
  subst hbase
  by_cases hd : s.last_generation_date = today <;>
    simp [RateLimiter.check_and_update, hd, MAX_STORIES_PER_DAY] <;>
    split_ifs with h <;>
    simp_all <;>
    omega

/-- Witness for C1: a state dated yesterday with 7 stories is reset, allowed,
and ends the call with exactly one story counted for today. -/
theorem check_and_update_spec_witness :
    (RateLimiter.check_and_update
        (some ⟨"sid", 7, "2024-01-01"⟩) "2024-01-02" "fid").1 = true ∧
    (RateLimiter.check_and_update
        (some ⟨"sid", 7, "2024-01-01"⟩) "2024-01-02" "fid").2.2.2.stories_generated_today
      = 1 := by
  have h := check_and_update_spec ⟨"sid", 7, "2024-01-01"⟩ "2024-01-02" "fid" 0
    (by decide)
  have h4 := h.2.2.2 (by decide)
  exact ⟨h4.1, h4.2.2⟩

/-- C2: the bound `stories_generated_today ≤ MAX_STORIES_PER_DAY` holds for
every freshly initialised state and is preserved by `check_and_update`, for a
`some` state satisfying it and for a `none` state. -/
theorem stories_invariant (sid today fid : String) (s : SessionState)
    (h : s.stories_generated_today ≤ MAX_STORIES_PER_DAY) :
    (RateLimiter.get_initial_state sid today).stories_generated_today
        ≤ MAX_STORIES_PER_DAY ∧
    (RateLimiter.check_and_update (some s) today fid).2.2.2.stories_generated_today
        ≤ MAX_STORIES_PER_DAY ∧
    (RateLimiter.check_and_update none today fid).2.2.2.stories_generated_today
        ≤ MAX_STORIES_PER_DAY := by
  refine ⟨by simp [RateLimiter.get_initial_state, MAX_STORIES_PER_DAY], ?_, ?_⟩
  · have h10 : s.stories_generated_today ≤ 10 := h
    by_cases hd : s.last_generation_date = today <;>
      simp [RateLimiter.check_and_update, hd, MAX_STORIES_PER_DAY] <;>
      split_ifs with hge <;>
      simp_all <;>
      omega
  · simp [RateLimiter.check_and_update, RateLimiter.get_initial_state,
      MAX_STORIES_PER_DAY]

/-- Witness for C2 at a concrete in-bounds state. -/
theorem stories_invariant_witness :
    (RateLimiter.check_and_update
        (some ⟨"sid", 10, "2024-01-02"⟩) "2024-01-02" "fid").2.2.2.stories_generated_today
      ≤ MAX_STORIES_PER_DAY := by
  have h := stories_invariant "sid" "2024-01-02" "fid" ⟨"sid", 10, "2024-01-02"⟩
    (by decide)
  exact h.2.1

/-- C10 counterexample: on a state whose stored counter is the Python integer
-1 and whose date is current, `get_remaining` returns 11, which exceeds
`MAX_STORIES_PER_DAY`, so the result is not between 0 and the maximum. -/
theorem get_remaining_counterexample :
    RateLimiter.get_remaining (some ⟨"sid", -1, "2024-01-02"⟩) "2024-01-02" = 11 ∧
    ¬ RateLimiter.get_remaining (some ⟨"sid", -1, "2024-01-02"⟩) "2024-01-02"
        ≤ MAX_STORIES_PER_DAY := by
  constructor
  · decide
  · decide

/-- C10 (amended): `get_remaining` returns `MAX_STORIES_PER_DAY` on `None`
and on a stale date, is never negative (in particular it is 0 whenever the
stored counter reaches or exceeds the maximum), and is at most
`MAX_STORIES_PER_DAY` whenever the stored counter is nonnegative. -/
theorem get_remaining_spec (today : String) (s : SessionState) :
    RateLimiter.get_remaining none today = MAX_STORIES_PER_DAY ∧
    (s.last_generation_date ≠ today →
      RateLimiter.get_remaining (some s) today = MAX_STORIES_PER_DAY) ∧
    0 ≤ RateLimiter.get_remaining (some s) today ∧
    (s.last_generation_date = today →
      MAX_STORIES_PER_DAY ≤ s.stories_generated_today →
      RateLimiter.get_remaining (some s) today = 0) ∧
    (0 ≤ s.stories_generated_today →
      RateLimiter.get_remaining (some s) today ≤ MAX_STORIES_PER_DAY) := by
  unfold RateLimiter.get_remaining
  by_cases hd : s.last_generation_date = today
  · simp [hd, MAX_STORIES_PER_DAY, max_def]
    split_ifs <;> omega
  · simp [hd, MAX_STORIES_PER_DAY]

/-- Witness for C10 at a concrete over-limit state: 13 stories recorded today
still yields 0 remaining, within bounds. -/
theorem get_remaining_spec_witness :
    RateLimiter.get_remaining (some ⟨"sid", 13, "2024-01-02"⟩) "2024-01-02" = 0 := by
  have h := get_remaining_spec "2024-01-02" ⟨"sid", 13, "2024-01-02"⟩
  exact h.2.2.2.1 rfl (by decide)

/-! ### Theorems for the name-cleaning claim -/

/-- C3 counterexample: for the input name "Anna-Lena" the cleaning step keeps
the hyphen, which is not a letter, so the cleaned name does not consist only
of letters. -/
theorem clean_name_counterexample :
    clean_name "Anna-Lena".toList = "Anna-Lena".toList ∧
    '-' ∈ clean_name "Anna-Lena".toList ∧
    ('-'.isAlpha) = false := by
  refine ⟨by decide, by decide, by decide⟩

/-- C3 (amended): the cleaning step keeps exactly the letters, spaces,
hyphens and apostrophes of the input, in order: every character of the
cleaned name is a letter, a space, a hyphen or an apostrophe, and the
cleaned name is a sublist of the input. -/
theorem clean_name_spec (s : List Char) :
    (∀ c ∈ clean_name s,
      (c.isAlpha || c = ' ' || c = '-' || c = '\x27') = true) ∧
    List.Sublist (clean_name s) s := by
  constructor
  · intro c hc
    unfold clean_name at hc
    exact (List.mem_filter.mp hc).2
  · unfold clean_name
    exact List.filter_sublist s

/-- Witness for C3 at the concrete input "Anna-Lena": the hyphen it keeps is
among the allowed characters. -/
theorem clean_name_spec_witness :
    ('-'.isAlpha || '-' = ' ' || '-' = '-' || '-' = '\x27') = true ∧
    List.Sublist (clean_name "Anna-Lena".toList) "Anna-Lena".toList := by
  have h := clean_name_spec "Anna-Lena".toList
  exact ⟨h.1 '-' (by decide), h.2⟩

/-! ### Text chunking for TTS (src/tts_engine.py, `TTSEngine._split_into_chunks`) -/

/-- Whitespace characters removed by Python `str.strip()` (ASCII fragment). -/
def isPyWs (c : Char) : Bool :=
  c = ' ' || c = '\t' || c = '\n' || c = '\r' || c = '\x0b' || c = '\x0c'

/-- Removal of trailing whitespace, the right half of `str.strip()`. -/
def stripBack (s : List Char) : List Char :=
  (s.reverse.dropWhile isPyWs).reverse

/-- Embedding of Python `str.strip()`: drop leading and trailing whitespace. -/
def pyStrip (s : List Char) : List Char :=
  stripBack (s.dropWhile isPyWs)

/-- Sentence-ending characters, the Python test `char in ".!?"`. -/
def isSplitChar (c : Char) : Bool :=
  c = '.' || c = '!' || c = '?'

/-- First loop of `_split_into_chunks`: scan the text, appending each
character to `current`, and cut a sentence after '.', '!' or '?' once the
accumulated `current` is longer than 10 characters; a non-blank remainder
becomes a final sentence. -/
def sentLoop (current : List Char) : List Char → List (List Char)
  | [] => if (pyStrip current).isEmpty then [] else [pyStrip current]
  | c :: rest =>
    if isSplitChar c && decide ((current ++ [c]).length > 10) then
      pyStrip (current ++ [c]) :: sentLoop [] rest
    else
      sentLoop (current ++ [c]) rest

/-- Sentences of a text, as produced by the first loop of
`_split_into_chunks` starting from an empty `current`. -/
def sentencesOf (text : List Char) : List (List Char) :=
  sentLoop [] text

/-- Second loop of `_split_into_chunks`: group sentences into chunks,
starting a new chunk when the accumulated chunk would exceed `chunk_size`,
joining sentences within a chunk with a single space. -/
def chunkLoop (chunk_size : Int) (current_chunk : List Char) :
    List (List Char) → List (List Char)
  | [] =>
    if (pyStrip current_chunk).isEmpty then [] else [pyStrip current_chunk]
  | s :: rest =>
    if decide ((current_chunk.length : Int) + (s.length : Int) > chunk_size)
        && !current_chunk.isEmpty then
      pyStrip current_chunk :: chunkLoop chunk_size s rest
    else
      chunkLoop chunk_size
        (if current_chunk.isEmpty then s else current_chunk ++ ' ' :: s) rest

/-- Embedding of `TTSEngine._split_into_chunks`: split into sentences, group
them into chunks, and fall back to the whole text when no chunk was formed
(`return chunks if chunks else [text]`). -/
def _split_into_chunks (text : List Char) (chunk_size : Int) : List (List Char) :=
  if (chunkLoop chunk_size [] (sentencesOf text)).isEmpty then [text]
  else chunkLoop chunk_size [] (sentencesOf text)

/-- Sentences of one chunk joined back with single spaces, the shape that
`current_chunk += " " + sentence` gives a chunk made of those sentences. -/
def joinSp : List (List Char) → List Char
  | [] => []
  | [s] => s
  | s :: t :: rest => s ++ ' ' :: joinSp (t :: rest)

/-! ### Whitespace-stripping lemmas -/

theorem dropWhile_head_false {p : Char → Bool} {l : List Char}
    (h : ∀ c, l.head? = some c → p c = false) : l.dropWhile p = l := by
  cases l with
  | nil => rfl
  | cons a t =>
    have := h a rfl
    simp [List.dropWhile_cons, this]

theorem dropWhile_head?_false {p : Char → Bool} {l : List Char} {c : Char}
    (h : (l.dropWhile p).head? = some c) : p c = false := by
  induction l with
  | nil => simp at h
  | cons a t ih =>
    by_cases hp : p a
    · rw [List.dropWhile_cons_of_pos hp] at h
      exact ih h
    · rw [List.dropWhile_cons_of_neg hp] at h
      simp at h
      subst h
      exact Bool.eq_false_iff.mpr hp

theorem stripBack_decomp (l : List Char) :
    ∃ w, l = stripBack l ++ w ∧ ∀ c ∈ w, isPyWs c = true := by
  refine ⟨(l.reverse.takeWhile isPyWs).reverse, ?_, ?_⟩
  · conv_lhs => rw [← List.reverse_reverse l,
      ← List.takeWhile_append_dropWhile (p := isPyWs) (l := l.reverse)]
    rw [List.reverse_append]
    rfl
  · intro c hc
    rw [List.mem_reverse] at hc
    exact List.mem_takeWhile_imp hc

theorem stripBack_getLast?_false {l : List Char} {c : Char}
    (h : (stripBack l).getLast? = some c) : isPyWs c = false := by
  unfold stripBack at h
  rw [List.getLast?_reverse] at h
  exact dropWhile_head?_false h

theorem pyStrip_head?_false {l : List Char} {c : Char}
    (h : (pyStrip l).head? = some c) : isPyWs c = false := by
  unfold pyStrip at h
  obtain ⟨w, hw, -⟩ := stripBack_decomp (l.dropWhile isPyWs)
  have : (l.dropWhile isPyWs).head? = some c := by
    rw [hw]
    cases hsb : stripBack (l.dropWhile isPyWs) with
    | nil => rw [hsb] at h; simp at h
    | cons a t => rw [hsb] at h; simp at h ⊢; exact h
  exact dropWhile_head?_false this

theorem pyStrip_getLast?_false {l : List Char} {c : Char}
    (h : (pyStrip l).getLast? = some c) : isPyWs c = false := by
  unfold pyStrip at h
  exact stripBack_getLast?_false h

theorem pyStrip_eq_self {l : List Char}
    (h1 : ∀ c, l.head? = some c → isPyWs c = false)
    (h2 : ∀ c, l.getLast? = some c → isPyWs c = false) : pyStrip l = l := by
  unfold pyStrip stripBack
  rw [dropWhile_head_false h1, dropWhile_head_false, List.reverse_reverse]
  intro c hc
  rw [List.head?_reverse] at hc
  exact h2 c hc

theorem pyStrip_idem (l : List Char) : pyStrip (pyStrip l) = pyStrip l :=
  pyStrip_eq_self (fun _ h => pyStrip_head?_false h)
    (fun _ h => pyStrip_getLast?_false h)

theorem pyStrip_append_last {l : List Char} {c : Char}
    (h : isPyWs c = false) :
    pyStrip (l ++ [c]) = l.dropWhile isPyWs ++ [c] := by
  unfold pyStrip stripBack
  rw [List.dropWhile_append]
  split
  · rename_i he
    have hl : l.dropWhile isPyWs = [] := by
      simpa [List.isEmpty_iff] using he
    simp [hl, List.dropWhile_cons, h]
  · rw [List.reverse_append]
    simp only [List.reverse_cons, List.reverse_nil, List.nil_append,
      List.singleton_append]
    rw [List.dropWhile_cons_of_neg (by simp [h])]
    simp

theorem pyStrip_append_last_ne_nil {l : List Char} {c : Char}
    (h : isPyWs c = false) : pyStrip (l ++ [c]) ≠ [] := by
  rw [pyStrip_append_last h]
  simp

theorem split_char_not_ws {c : Char} (h : isSplitChar c = true) :
    isPyWs c = false := by
  have h2 := h
  simp only [isSplitChar, Bool.or_eq_true, decide_eq_true_eq] at h2
  rcases h2 with (h2 | h2) | h2 <;> subst h2 <;> decide

/-! ### Lemmas about space-joined sentence groups -/

theorem joinSp_append_single {g : List (List Char)} {s : List Char}
    (hg : g ≠ []) : joinSp (g ++ [s]) = joinSp g ++ ' ' :: s := by
  induction g with
  | nil => exact absurd rfl hg
  | cons a t ih =>
    cases t with
    | nil => rfl
    | cons b r =>
      have h1 : joinSp ((b :: r) ++ [s]) = joinSp (b :: r) ++ ' ' :: s :=
        ih (by simp)
      have h2 : (a :: b :: r) ++ [s] = a :: ((b :: r) ++ [s]) := by simp
      rw [h2]
      show a ++ ' ' :: joinSp ((b :: r) ++ [s]) = joinSp (a :: b :: r) ++ ' ' :: s
      rw [h1]
      show a ++ ' ' :: (joinSp (b :: r) ++ ' ' :: s)
          = (a ++ ' ' :: joinSp (b :: r)) ++ ' ' :: s
      simp

theorem joinSp_head? {a : List Char} (r : List (List Char)) (ha : a ≠ []) :
    (joinSp (a :: r)).head? = a.head? := by
  cases r with
  | nil => rfl
  | cons b t =>
    show (a ++ ' ' :: joinSp (b :: t)).head? = a.head?
    cases a with
    | nil => exact absurd rfl ha
    | cons x y => simp

theorem joinSp_ne_nil {g : List (List Char)} (hg : g ≠ [])
    (hne : ∀ s ∈ g, s ≠ []) : joinSp g ≠ [] := by
  cases g with
  | nil => exact absurd rfl hg
  | cons a t =>
    have ha : a ≠ [] := hne a (by simp)
    have hh : (joinSp (a :: t)).head? = a.head? := joinSp_head? t ha
    cases a with
    | nil => exact absurd rfl ha
    | cons x y =>
      intro hcon
      rw [hcon] at hh
      simp at hh

theorem joinSp_getLast? {g : List (List Char)} {s : List Char}
    (hne : ∀ x ∈ g, x ≠ []) (hlast : g.getLast? = some s) :
    (joinSp g).getLast? = s.getLast? := by
  induction g with
  | nil => simp at hlast
  | cons a t ih =>
    cases t with
    | nil =>
      simp at hlast
      subst hlast
      rfl
    | cons b r =>
      have ht : (b :: r).getLast? = some s := by
        rw [List.getLast?_cons_cons] at hlast
        exact hlast
      have hne2 : ∀ x ∈ b :: r, x ≠ [] :=
        fun x hx => hne x (List.mem_cons_of_mem a hx)
      have ihv : (joinSp (b :: r)).getLast? = s.getLast? := ih hne2 ht
      have hjne : joinSp (b :: r) ≠ [] := joinSp_ne_nil (by simp) hne2
      show (a ++ ' ' :: joinSp (b :: r)).getLast? = s.getLast?
      rw [List.getLast?_append]
      cases hj : joinSp (b :: r) with
      | nil => exact absurd hj hjne
      | cons x y =>
        rw [hj] at ihv
        obtain ⟨z, hz⟩ : ∃ z, (x :: y).getLast? = some z := by
          cases hq : (x :: y).getLast? with
          | none =>
            rw [List.getLast?_eq_none_iff] at hq
            simp at hq
          | some z => exact ⟨z, rfl⟩
        rw [List.getLast?_cons_cons, hz, ← ihv, hz]
        simp

theorem joinSp_stripped {g : List (List Char)} (hg : g ≠ [])
    (hne : ∀ s ∈ g, s ≠ []) (hst : ∀ s ∈ g, pyStrip s = s) :
    pyStrip (joinSp g) = joinSp g := by
  cases g with
  | nil => exact absurd rfl hg
  | cons a t =>
    apply pyStrip_eq_self
    · intro c hc
      rw [joinSp_head? t (hne a (by simp))] at hc
      have hsc : (pyStrip a).head? = some c := by
        rw [hst a (by simp)]
        exact hc
      exact pyStrip_head?_false hsc
    · intro c hc
      obtain ⟨s, hs⟩ : ∃ s, (a :: t).getLast? = some s := by
        cases h2 : (a :: t).getLast? with
        | none =>
          rw [List.getLast?_eq_none_iff] at h2
          simp at h2
        | some s => exact ⟨s, rfl⟩
      rw [joinSp_getLast? hne hs] at hc
      have hsg : s ∈ a :: t := List.mem_of_getLast?_eq_some hs
      have hsc : (pyStrip s).getLast? = some c := by
        rw [hst s hsg]
        exact hc
      exact pyStrip_getLast?_false hsc

/-! ### Lemmas about the sentence-splitting loop -/

theorem sentLoop_good : ∀ (text current : List Char) (s : List Char),
    s ∈ sentLoop current text → s ≠ [] ∧ pyStrip s = s := by
  intro text
  induction text with
  | nil =>
    intro cur s hs
    unfold sentLoop at hs
    split at hs
    · simp at hs
    · rename_i hne
      simp at hs
      subst hs
      refine ⟨?_, pyStrip_idem cur⟩
      intro hcon
      exact hne (by simp [hcon])
  | cons c rest ih =>
    intro cur s hs
    unfold sentLoop at hs
    split at hs
    · rename_i hcond
      rcases List.mem_cons.mp hs with h | h
      · subst h
        have hsc : isSplitChar c = true := (Bool.and_eq_true_iff.mp hcond).1
        exact ⟨pyStrip_append_last_ne_nil (split_char_not_ws hsc),
          pyStrip_idem _⟩
      · exact ih [] s h
    · exact ih (cur ++ [c]) s hs

theorem sentencesOf_good {text s : List Char} (hs : s ∈ sentencesOf text) :
    s ≠ [] ∧ pyStrip s = s :=
  sentLoop_good text [] s hs

theorem sentLoop_dropLast_punct : ∀ (text current : List Char)
    (s : List Char), s ∈ (sentLoop current text).dropLast →
    ∃ c, s.getLast? = some c ∧ isSplitChar c = true := by
  intro text
  induction text with
  | nil =>
    intro cur s hs
    unfold sentLoop at hs
    split at hs <;> simp at hs
  | cons c rest ih =>
    intro cur s hs
    unfold sentLoop at hs
    split at hs
    · rename_i hcond
      have hsc : isSplitChar c = true := (Bool.and_eq_true_iff.mp hcond).1
      cases hL : sentLoop [] rest with
      | nil =>
        rw [hL] at hs
        simp at hs
      | cons b r =>
        rw [hL, List.dropLast_cons₂] at hs
        rcases List.mem_cons.mp hs with h | h
        · subst h
          refine ⟨c, ?_, hsc⟩
          rw [pyStrip_append_last (split_char_not_ws hsc)]
          exact List.getLast?_concat _
        · exact ih [] s (by rw [hL]; exact h)
    · exact ih (cur ++ [c]) s hs

theorem sentLoop_eq_nil : ∀ (text current : List Char),
    sentLoop current text = [] → pyStrip (current ++ text) = [] := by
  intro text
  induction text with
  | nil =>
    intro cur h
    unfold sentLoop at h
    split at h
    · rename_i he
      rw [List.append_nil]
      simpa [List.isEmpty_iff] using he
    · simp at h
  | cons c rest ih =>
    intro cur h
    unfold sentLoop at h
    split at h
    · simp at h
    · have h2 := ih (cur ++ [c]) h
      rw [List.append_assoc] at h2
      simpa using h2

theorem sentencesOf_ne_nil {text : List Char} (h : pyStrip text ≠ []) :
    sentencesOf text ≠ [] := by
  intro hcon
  exact h (by simpa using sentLoop_eq_nil text [] hcon)

/-! ### Lemmas about the chunk-grouping loop -/

/-- A well-formed sentence as produced by the sentence loop: non-empty and
already stripped. -/
def GoodSent (s : List Char) : Prop := s ≠ [] ∧ pyStrip s = s

theorem chunkLoop_nil_eq {csize : Int} {g : List (List Char)} (hg : g ≠ [])
    (hgood : ∀ s ∈ g, GoodSent s) :
    chunkLoop csize (joinSp g) [] = [joinSp g] := by
  have hst : pyStrip (joinSp g) = joinSp g :=
    joinSp_stripped hg (fun s hs => (hgood s hs).1) (fun s hs => (hgood s hs).2)
  have hne : joinSp g ≠ [] :=
    joinSp_ne_nil hg (fun s hs => (hgood s hs).1)
  unfold chunkLoop
  rw [hst, if_neg (by simpa [List.isEmpty_iff] using hne)]

theorem chunkLoop_cons_push {csize : Int} {cur s : List Char}
    {rest : List (List Char)}
    (hcond : (decide ((cur.length : Int) + (s.length : Int) > csize)
      && !cur.isEmpty) = true) :
    chunkLoop csize cur (s :: rest) =
      pyStrip cur :: chunkLoop csize s rest := by
  simp only [chunkLoop]
  rw [if_pos hcond]

theorem chunkLoop_cons_else {csize : Int} {cur s : List Char}
    {rest : List (List Char)}
    (hcond : ¬ ((decide ((cur.length : Int) + (s.length : Int) > csize)
      && !cur.isEmpty) = true)) :
    chunkLoop csize cur (s :: rest) =
      chunkLoop csize (if cur.isEmpty then s else cur ++ ' ' :: s) rest := by
  simp only [chunkLoop]
  rw [if_neg hcond]

theorem good_append_sp {cur s : List Char} (hc : GoodSent cur)
    (hs : GoodSent s) : GoodSent (cur ++ ' ' :: s) := by
  have hj : cur ++ ' ' :: s = joinSp [cur, s] := rfl
  rw [hj]
  constructor
  · exact joinSp_ne_nil (by simp) (by
      intro x hx
      rcases List.mem_cons.mp hx with h | h
      · subst h; exact hc.1
      · simp at h; subst h; exact hs.1)
  · exact joinSp_stripped (by simp)
      (by
        intro x hx
        rcases List.mem_cons.mp hx with h | h
        · subst h; exact hc.1
        · simp at h; subst h; exact hs.1)
      (by
        intro x hx
        rcases List.mem_cons.mp hx with h | h
        · subst h; exact hc.2
        · simp at h; subst h; exact hs.2)

theorem chunkLoop_ne_nil (csize : Int) : ∀ (sents : List (List Char))
    (cur : List Char), GoodSent cur → (∀ s ∈ sents, GoodSent s) →
    chunkLoop csize cur sents ≠ [] := by
  intro sents
  induction sents with
  | nil =>
    intro cur hcur _
    unfold chunkLoop
    rw [hcur.2, if_neg (by simpa [List.isEmpty_iff] using hcur.1)]
    simp
  | cons s rest ih =>
    intro cur hcur hsents
    have hs : GoodSent s := hsents s (by simp)
    have hrest : ∀ x ∈ rest, GoodSent x := fun x hx => hsents x (by simp [hx])
    by_cases hcond : (decide ((cur.length : Int) + (s.length : Int) > csize)
        && !cur.isEmpty) = true
    · rw [chunkLoop_cons_push hcond]
      simp
    · rw [chunkLoop_cons_else hcond,
        if_neg (by simpa [List.isEmpty_iff] using hcur.1)]
      exact ih (cur ++ ' ' :: s) (good_append_sp hcur hs) hrest

theorem chunkLoop_partition (csize : Int) : ∀ (sents g : List (List Char)),
    g ≠ [] → (∀ s ∈ g, GoodSent s) → (∀ s ∈ sents, GoodSent s) →
    ∃ gs : List (List (List Char)),
      gs ≠ [] ∧ (∀ h ∈ gs, h ≠ []) ∧ gs.join = g ++ sents ∧
      chunkLoop csize (joinSp g) sents = gs.map joinSp := by
  intro sents
  induction sents with
  | nil =>
    intro g hg hgood _
    exact ⟨[g], by simp, by simpa using hg, by simp,
      by rw [chunkLoop_nil_eq hg hgood]; simp⟩
  | cons s rest ih =>
    intro g hg hgood hsents
    have hs : GoodSent s := hsents s (by simp)
    have hrest : ∀ x ∈ rest, GoodSent x := fun x hx => hsents x (by simp [hx])
    have hgne : joinSp g ≠ [] :=
      joinSp_ne_nil hg (fun x hx => (hgood x hx).1)
    have hgst : pyStrip (joinSp g) = joinSp g :=
      joinSp_stripped hg (fun x hx => (hgood x hx).1)
        (fun x hx => (hgood x hx).2)
    by_cases hcond : (decide (((joinSp g).length : Int) + (s.length : Int) > csize)
        && !(joinSp g).isEmpty) = true
    · obtain ⟨gs, hne, hmem, hjoin, hrec⟩ :=
        ih [s] (by simp) (by simpa using hs) hrest
      refine ⟨g :: gs, by simp, ?_, ?_, ?_⟩
      · intro h hh
        rcases List.mem_cons.mp hh with h1 | h1
        · subst h1; exact hg
        · exact hmem h h1
      · simp [hjoin]
      · rw [chunkLoop_cons_push hcond, hgst]
        have hjs : joinSp [s] = s := rfl
        rw [hjs] at hrec
        rw [hrec]
        simp
    · rw [chunkLoop_cons_else hcond,
        if_neg (by simpa [List.isEmpty_iff] using hgne),
        (joinSp_append_single hg).symm]
      obtain ⟨gs, hne, hmem, hjoin, hrec⟩ :=
        ih (g ++ [s]) (by simp)
          (by
            intro x hx
            rcases List.mem_append.mp hx with h1 | h1
            · exact hgood x h1
            · simp at h1; subst h1; exact hs)
          hrest
      refine ⟨gs, hne, hmem, ?_, hrec⟩
      rw [hjoin]
      simp

theorem chunkLoop_dropLast_punct (csize : Int) : ∀ (sents g : List (List Char)),
    g ≠ [] → (∀ s ∈ g, GoodSent s) → (∀ s ∈ sents, GoodSent s) →
    (∀ s ∈ (g ++ sents).dropLast,
      ∃ c, s.getLast? = some c ∧ isSplitChar c = true) →
    ∀ ch ∈ (chunkLoop csize (joinSp g) sents).dropLast,
      ∃ c, ch.getLast? = some c ∧ isSplitChar c = true := by
  intro sents
  induction sents with
  | nil =>
    intro g hg hgood _ _ ch hch
    rw [chunkLoop_nil_eq hg hgood] at hch
    simp at hch
  | cons s rest ih =>
    intro g hg hgood hsents hpunct ch hch
    have hs : GoodSent s := hsents s (by simp)
    have hrest : ∀ x ∈ rest, GoodSent x := fun x hx => hsents x (by simp [hx])
    have hgne : joinSp g ≠ [] :=
      joinSp_ne_nil hg (fun x hx => (hgood x hx).1)
    have hgst : pyStrip (joinSp g) = joinSp g :=
      joinSp_stripped hg (fun x hx => (hgood x hx).1)
        (fun x hx => (hgood x hx).2)
    by_cases hcond : (decide (((joinSp g).length : Int) + (s.length : Int) > csize)
        && !(joinSp g).isEmpty) = true
    · rw [chunkLoop_cons_push hcond, hgst] at hch
      have hrec_ne : chunkLoop csize s rest ≠ [] :=
        chunkLoop_ne_nil csize rest s hs hrest
      rw [List.dropLast_cons_of_ne_nil hrec_ne] at hch
      rcases List.mem_cons.mp hch with h1 | h1
      · subst h1
        obtain ⟨s', hs'⟩ : ∃ s', g.getLast? = some s' := by
          cases hq : g.getLast? with
          | none => rw [List.getLast?_eq_none_iff] at hq; exact absurd hq hg
          | some s' => exact ⟨s', rfl⟩
        have hsg : s' ∈ g := List.mem_of_getLast?_eq_some hs'
        have hmem : s' ∈ (g ++ s :: rest).dropLast := by
          rw [List.dropLast_append_cons]
          exact List.mem_append_left _ hsg
        obtain ⟨c, hc1, hc2⟩ := hpunct s' hmem
        refine ⟨c, ?_, hc2⟩
        rw [joinSp_getLast? (fun x hx => (hgood x hx).1) hs']
        exact hc1
      · have hjs : joinSp [s] = s := rfl
        refine ih [s] (by simp) (by simpa using hs) hrest ?_ ch ?_
        · intro x hx
          refine hpunct x ?_
          rw [List.dropLast_append_cons]
          refine List.mem_append_right _ ?_
          simpa using hx
        · rw [hjs]
          exact h1
    · rw [chunkLoop_cons_else hcond,
        if_neg (by simpa [List.isEmpty_iff] using hgne),
        (joinSp_append_single hg).symm] at hch
      refine ih (g ++ [s]) (by simp)
        (by
          intro x hx
          rcases List.mem_append.mp hx with h1 | h1
          · exact hgood x h1
          · simp at h1; subst h1; exact hs)
        hrest
        (by
          intro x hx
          refine hpunct x ?_
          rw [List.append_assoc] at hx
          simpa using hx)
        ch hch

theorem chunkLoop_start (csize : Int) (s : List Char)
    (rest : List (List Char)) :
    chunkLoop csize [] (s :: rest) = chunkLoop csize s rest := by
  rw [chunkLoop_cons_else (by simp)]
  simp

/-! ### Theorems for the chunker claims -/

/-- C4 counterexample: a text of 5001 blanks exceeds the 5000-character
chunking threshold, yet `_split_into_chunks` emits the whole-text fallback
chunk even though the text contains no sentence at all, so that chunk does
not consist of one or more complete sentences of the input. -/
theorem chunks_counterexample :
    5000 < (List.replicate 5001 ' ').length ∧ (0 : Int) < 2000 ∧
    _split_into_chunks (List.replicate 5001 ' ') 2000
      = [List.replicate 5001 ' '] ∧
    sentencesOf (List.replicate 5001 ' ') = [] ∧
    ¬ ∃ gs : List (List (List Char)), gs ≠ [] ∧ (∀ g ∈ gs, g ≠ []) ∧
        gs.join = sentencesOf (List.replicate 5001 ' ') ∧
        _split_into_chunks (List.replicate 5001 ' ') 2000 = gs.map joinSp := by
  have hws : ∀ n (cur : List Char), (∀ c ∈ cur, isPyWs c = true) →
      sentLoop cur (List.replicate n ' ') = [] := by
    intro n
    induction n with
    | zero =>
      intro cur hcur
      have h1 : cur.dropWhile isPyWs = [] :=
        List.dropWhile_eq_nil_iff.mpr (by intro x hx; exact hcur x hx)
      have h2 : pyStrip cur = [] := by
        simp [pyStrip, h1, stripBack]
      show sentLoop cur [] = []
      unfold sentLoop
      rw [h2]
      simp
    | succ n ih =>
      intro cur hcur
      show sentLoop cur (' ' :: List.replicate n ' ') = []
      unfold sentLoop
      rw [if_neg (by simp [isSplitChar])]
      refine ih (cur ++ [' ']) ?_
      intro c hc
      rcases List.mem_append.mp hc with h | h
      · exact hcur c h
      · simp at h
        subst h
        decide
  have hsent : sentencesOf (List.replicate 5001 ' ') = [] :=
    hws 5001 [] (by simp)
  have hsplit : _split_into_chunks (List.replicate 5001 ' ') 2000
      = [List.replicate 5001 ' '] := by
    unfold _split_into_chunks
    rw [hsent]
    rfl
  refine ⟨?_, by decide, hsplit, hsent, ?_⟩
  · rw [List.length_replicate]
    omega
  rintro ⟨gs, hne, hmem, hjoin, -⟩
  rw [hsent] at hjoin
  cases gs with
  | nil => exact hne rfl
  | cons g t =>
    have hg : g ≠ [] := hmem g (by simp)
    have : g ++ t.join = [] := by simpa using hjoin
    exact hg (List.append_eq_nil.mp this).1

/-- C4 (amended): for every text longer than the 5000-character threshold
whose stripped form is non-blank (so it has at least one sentence) and every
positive chunk size, the chunk list is exactly a consecutive grouping of the
sentence list: there are non-empty groups whose concatenation is the sentence
list, and each chunk is the sentences of its group joined by single spaces —
no sentence is ever split across two chunks. -/
theorem chunks_are_sentence_groups (text : List Char) (chunk_size : Int)
    (h5 : 5000 < text.length) (hcs : 0 < chunk_size)
    (hsome : pyStrip text ≠ []) :
    ∃ gs : List (List (List Char)),
      gs ≠ [] ∧ (∀ g ∈ gs, g ≠ []) ∧ gs.join = sentencesOf text ∧
      _split_into_chunks text chunk_size = gs.map joinSp := by
  have hsent := sentencesOf_ne_nil hsome
  cases hsents : sentencesOf text with
  | nil => exact absurd hsents hsent
  | cons s rest =>
    have hgood : ∀ x ∈ sentencesOf text, GoodSent x :=
      fun x hx => sentencesOf_good hx
    rw [hsents] at hgood
    have hs : GoodSent s := hgood s (by simp)
    have hrest : ∀ x ∈ rest, GoodSent x := fun x hx => hgood x (by simp [hx])
    obtain ⟨gs, hne, hmem, hjoin, hrec⟩ :=
      chunkLoop_partition chunk_size rest [s] (by simp) (by simpa using hs)
        hrest
    have hjs : joinSp [s] = s := rfl
    rw [hjs] at hrec
    refine ⟨gs, hne, hmem, by rw [hjoin]; simp, ?_⟩
    unfold _split_into_chunks
    rw [hsents, chunkLoop_start, hrec,
      if_neg (by simp [List.isEmpty_iff, hne])]

/-- Concrete long text used to witness the chunking theorems. -/
def sampleLongText : List Char := List.replicate 5001 'a'

/-- Witness for C4: a 5001-character non-blank text satisfies all the
hypotheses of the amended chunking claim. -/
theorem chunks_are_sentence_groups_witness :
    5000 < sampleLongText.length ∧ (0 : Int) < 2000 ∧
    pyStrip sampleLongText ≠ [] ∧
    ∃ gs : List (List (List Char)),
      gs ≠ [] ∧ (∀ g ∈ gs, g ≠ []) ∧ gs.join = sentencesOf sampleLongText ∧
      _split_into_chunks sampleLongText 2000 = gs.map joinSp := by
  have h1 : 5000 < sampleLongText.length := by
    unfold sampleLongText
    rw [List.length_replicate]
    omega
  have h3 : pyStrip sampleLongText ≠ [] := by
    have h4 : sampleLongText = List.replicate 5000 'a' ++ ['a'] := by
      show List.replicate 5001 'a' = List.replicate 5000 'a' ++ ['a']
      have h5 : (5001 : Nat) = 5000 + 1 := by omega
      rw [h5, List.replicate_succ']
    rw [h4, pyStrip_append_last (by decide)]
    intro hcon
    have h6 := (List.append_eq_nil.mp hcon).2
    simp at h6
  exact ⟨h1, by decide, h3,
    chunks_are_sentence_groups sampleLongText 2000 h1 (by decide) h3⟩

/-- C5: every chunk emitted by `_split_into_chunks` except possibly the last
ends with '.', '!' or '?'. -/
theorem chunk_ends_with_split_char (text : List Char) (chunk_size : Int) :
    ∀ ch ∈ (_split_into_chunks text chunk_size).dropLast,
      ∃ c, ch.getLast? = some c ∧ isSplitChar c = true := by
  intro ch hch
  unfold _split_into_chunks at hch
  split at hch
  · simp at hch
  · cases hsents : sentencesOf text with
    | nil =>
      rw [hsents] at hch
      have : chunkLoop chunk_size [] ([] : List (List Char)) = [] := rfl
      rw [this] at hch
      simp at hch
    | cons s rest =>
      rw [hsents, chunkLoop_start] at hch
      have hgood : ∀ x ∈ sentencesOf text, GoodSent x :=
        fun x hx => sentencesOf_good hx
      rw [hsents] at hgood
      have hs : GoodSent s := hgood s (by simp)
      have hrest : ∀ x ∈ rest, GoodSent x := fun x hx => hgood x (by simp [hx])
      have hjs : joinSp [s] = s := rfl
      refine chunkLoop_dropLast_punct chunk_size rest [s] (by simp)
        (by simpa using hs) hrest ?_ ch (by rw [hjs]; exact hch)
      intro x hx
      have hx2 : x ∈ (sentencesOf text).dropLast := by
        rw [hsents]
        simpa using hx
      exact sentLoop_dropLast_punct text [] x hx2

/-- Witness for C5: on a two-sentence text split with a small chunk size, the
first (non-last) chunk ends with a period. -/
theorem chunk_ends_with_split_char_witness :
    ∃ c, ("Hello world today.".toList).getLast? = some c ∧
      isSplitChar c = true := by
  have h := chunk_ends_with_split_char
    "Hello world today. Goodbye cruel world.".toList 5
  exact h "Hello world today.".toList (by decide)

/-! ### Content preservation of the chunker (claim C9) -/

theorem filter_dropWhile_ws (l : List Char) :
    (l.dropWhile isPyWs).filter (fun c => !isPyWs c)
      = l.filter (fun c => !isPyWs c) := by
  induction l with
  | nil => rfl
  | cons a t ih =>
    by_cases h : isPyWs a
    · rw [List.dropWhile_cons_of_pos h, ih, List.filter_cons]
      simp [h]
    · rw [List.dropWhile_cons_of_neg h]

theorem filter_stripBack (l : List Char) :
    (stripBack l).filter (fun c => !isPyWs c)
      = l.filter (fun c => !isPyWs c) := by
  unfold stripBack
  rw [List.filter_reverse, filter_dropWhile_ws, ← List.filter_reverse,
    List.reverse_reverse]

theorem filter_pyStrip (l : List Char) :
    (pyStrip l).filter (fun c => !isPyWs c)
      = l.filter (fun c => !isPyWs c) := by
  unfold pyStrip
  rw [filter_stripBack, filter_dropWhile_ws]

theorem sentLoop_join_filter : ∀ (text current : List Char),
    ((sentLoop current text).join).filter (fun c => !isPyWs c)
      = (current ++ text).filter (fun c => !isPyWs c) := by
  intro text
  induction text with
  | nil =>
    intro cur
    unfold sentLoop
    split
    · rename_i he
      have hps : pyStrip cur = [] := by simpa [List.isEmpty_iff] using he
      have h2 : cur.filter (fun c => !isPyWs c) = [] := by
        rw [← filter_pyStrip cur, hps]
        rfl
      simp [h2]
    · simp [filter_pyStrip]
  | cons c rest ih =>
    intro cur
    unfold sentLoop
    split
    · simp only [List.join_cons, List.filter_append]
      rw [filter_pyStrip, ih []]
      by_cases hc : isPyWs c <;>
        simp [List.filter_append, List.filter_cons, hc]
    · rw [ih (cur ++ [c])]
      rw [show cur ++ c :: rest = (cur ++ [c]) ++ rest by simp]

theorem chunkLoop_join_filter (csize : Int) :
    ∀ (sents : List (List Char)) (cur : List Char),
    ((chunkLoop csize cur sents).join).filter (fun c => !isPyWs c)
      = (cur ++ sents.join).filter (fun c => !isPyWs c) := by
  intro sents
  induction sents with
  | nil =>
    intro cur
    unfold chunkLoop
    split
    · rename_i he
      have hps : pyStrip cur = [] := by simpa [List.isEmpty_iff] using he
      have h2 : cur.filter (fun c => !isPyWs c) = [] := by
        rw [← filter_pyStrip cur, hps]
        rfl
      simp [h2]
    · simp [filter_pyStrip]
  | cons s rest ih =>
    intro cur
    by_cases hcond : (decide ((cur.length : Int) + (s.length : Int) > csize)
        && !cur.isEmpty) = true
    · rw [chunkLoop_cons_push hcond]
      simp only [List.join_cons, List.filter_append]
      rw [filter_pyStrip, ih s]
      simp [List.filter_append, List.append_assoc]
    · rw [chunkLoop_cons_else hcond]
      by_cases hemp : cur.isEmpty
      · have hc : cur = [] := by simpa [List.isEmpty_iff] using hemp
        subst hc
        rw [if_pos hemp, ih s]
        simp
      · have hws : isPyWs ' ' = true := by decide
        rw [if_neg hemp, ih (cur ++ ' ' :: s)]
        simp [List.filter_append, List.filter_cons, hws]

/-- C9: `_split_into_chunks` always returns a non-empty list of chunks, and
joining the chunks preserves exactly the non-whitespace characters of the
input text, in order: only whitespace at sentence and chunk boundaries is
normalized or dropped. -/
theorem split_preserves_content (text : List Char) (chunk_size : Int) :
    _split_into_chunks text chunk_size ≠ [] ∧
    ((_split_into_chunks text chunk_size).join).filter (fun c => !isPyWs c)
      = text.filter (fun c => !isPyWs c) := by
  unfold _split_into_chunks
  split
  · constructor
    · simp
    · simp
  · rename_i hne
    constructor
    · simpa [List.isEmpty_iff] using hne
    · rw [chunkLoop_join_filter chunk_size (sentencesOf text) []]
      have h2 := sentLoop_join_filter text []
      simpa [sentencesOf] using h2

/-! ### Story generation with retries (src/story_generator.py) -/

/-- ASCII fragment of Python `str.lower()`. -/
def pyLower (s : List Char) : List Char := s.map Char.toLower

/-- Scanner of Python `str.title()`: a letter is uppercased when the previous
character was not a letter, lowercased otherwise (ASCII fragment). -/
def pyTitleGo : Bool → List Char → List Char
  | _, [] => []
  | prev, c :: rest =>
    if c.isAlpha then
      (if prev then c.toLower else c.toUpper) :: pyTitleGo true rest
    else
      c :: pyTitleGo false rest

/-- ASCII fragment of Python `str.title()`. -/
def pyTitle (s : List Char) : List Char := pyTitleGo false s

/-- Python prefix test used by substring containment. -/
def startsWithList : List Char → List Char → Bool
  | [], _ => true
  | _ :: _, [] => false
  | c :: cs, d :: ds => c == d && startsWithList cs ds

/-- Python substring containment `needle in hay`. -/
def containsSub (needle : List Char) : List Char → Bool
  | [] => startsWithList needle []
  | d :: ds => startsWithList needle (d :: ds) || containsSub needle ds

/-- Error message raised by `StoryGenerator.__init__` when no key is found. -/
def initErrMsg : String :=
  "Groq API key is required. Set GROQ_API_KEY environment variable " ++
    "or pass api_key parameter."

/-- Embedding of `StoryGenerator.__init__`: `api_key or
os.environ.get("GROQ_API_KEY")` with Python string truthiness, raising
`ValueError` when the resulting key is falsy.  Returns the stored key. -/
def StoryGenerator_init (api_key : Option String) (env_key : Option String) :
    Except String String :=
  match (match api_key with
         | some s => if s ≠ "" then some s else env_key
         | none => env_key) with
  | some s => if s = "" then .error initErrMsg else .ok s
  | none => .error initErrMsg

/-- One iteration of the retry loop in `StoryGenerator.generate_story`: call
the LLM (`llm attempt` stands for the network call at that attempt, returning
the response content or the message of the exception it raised), strip the
content, and validate length and presence of the child\x27s name. -/
def attemptOnce (llm : Nat → Except String (List Char))
    (child_name : List Char) (attempt : Nat) : Except String (List Char) :=
  match llm attempt with
  | .error e => .error e
  | .ok content =>
    let story := pyStrip content
    if story.length < 200 then .error "Generated story is too short"
    else if containsSub (pyLower child_name) (pyLower story) = false then
      .error "Story doesn\x27t include child\x27s name"
    else .ok story

/-- The retry loop `for attempt in range(max_retries + 1)` of
`generate_story`: return the first valid story; on failure continue while
`attempt < max_retries`, else surface the final error string. -/
def genLoop (llm : Nat → Except String (List Char)) (child_name : List Char)
    (max_retries : Nat) (attempt : Nat) : Except String (List Char) :=
  match attemptOnce llm child_name attempt with
  | .ok s => .ok s
  | .error e =>
    if h : attempt < max_retries then
      genLoop llm child_name max_retries (attempt + 1)
    else
      .error ("Failed to generate story after " ++ toString (max_retries + 1)
        ++ " attempts: " ++ e)
termination_by max_retries + 1 - attempt
decreasing_by omega

/-- Embedding of `StoryGenerator.generate_story`: clean the name with
`strip().title()`, reject an empty name, then run the retry loop. -/
def generate_story (llm : Nat → Except String (List Char))
    (child_name : List Char) (max_retries : Nat) : Except String (List Char) :=
  if pyTitle (pyStrip child_name) = [] then
    .error "Child\x27s name cannot be empty"
  else
    genLoop llm (pyTitle (pyStrip child_name)) max_retries 0

/-! ### Lemmas about the retry loop -/

theorem genLoop_success (llm : Nat → Except String (List Char))
    (nm : List Char) (mr : Nat) :
    ∀ (fuel attempt i : Nat) (s : List Char), mr + 1 - attempt = fuel →
    attempt ≤ i → i ≤ mr →
    attemptOnce llm nm i = .ok s →
    (∀ j, attempt ≤ j → j < i → ∃ e, attemptOnce llm nm j = .error e) →
    genLoop llm nm mr attempt = .ok s := by
  intro fuel
  induction fuel with
  | zero =>
    intro attempt i s hfuel hai him _ _
    omega
  | succ fuel ih =>
    intro attempt i s hfuel hai him hok hfail
    unfold genLoop
    by_cases hei : attempt = i
    · subst hei
      rw [hok]
    · have hlt : attempt < i := by omega
      obtain ⟨e, he⟩ := hfail attempt (le_refl _) hlt
      rw [he]
      dsimp only
      rw [dif_pos (by omega)]
      exact ih (attempt + 1) i s (by omega) (by omega) him hok
        (fun j hj1 hj2 => hfail j (by omega) hj2)

theorem genLoop_allfail (llm : Nat → Except String (List Char))
    (nm : List Char) (mr : Nat) :
    ∀ (fuel attempt : Nat), mr + 1 - attempt = fuel → attempt ≤ mr →
    (∀ j, attempt ≤ j → j ≤ mr → ∃ e, attemptOnce llm nm j = .error e) →
    ∃ e, attemptOnce llm nm mr = .error e ∧
      genLoop llm nm mr attempt =
        .error ("Failed to generate story after " ++ toString (mr + 1)
          ++ " attempts: " ++ e) := by
  intro fuel
  induction fuel with
  | zero =>
    intro attempt hfuel ham _
    omega
  | succ fuel ih =>
    intro attempt hfuel ham hfail
    by_cases hlast : attempt = mr
    · subst hlast
      obtain ⟨e, he⟩ := hfail attempt (le_refl _) (le_refl _)
      refine ⟨e, he, ?_⟩
      unfold genLoop
      rw [he]
      dsimp only
      rw [dif_neg (by omega)]
    · have hlt : attempt < mr := by omega
      obtain ⟨e0, he0⟩ := hfail attempt (le_refl _) (by omega)
      obtain ⟨e, he, hrec⟩ := ih (attempt + 1) (by omega) (by omega)
        (fun j hj1 hj2 => hfail j (by omega) hj2)
      refine ⟨e, he, ?_⟩
      unfold genLoop
      rw [he0]
      dsimp only
      rw [dif_pos hlt]
      exact hrec

theorem attemptOnce_congr (llm llm' : Nat → Except String (List Char))
    (nm : List Char) (j : Nat) (h : llm j = llm' j) :
    attemptOnce llm nm j = attemptOnce llm' nm j := by
  unfold attemptOnce
  rw [h]

theorem genLoop_congr (llm llm' : Nat → Except String (List Char))
    (nm : List Char) (mr : Nat) :
    ∀ (fuel attempt : Nat), mr + 1 - attempt = fuel → attempt ≤ mr →
    (∀ j, j ≤ mr → llm j = llm' j) →
    genLoop llm nm mr attempt = genLoop llm' nm mr attempt := by
  intro fuel
  induction fuel with
  | zero =>
    intro attempt hfuel ham _
    omega
  | succ fuel ih =>
    intro attempt hfuel ham hsame
    unfold genLoop
    rw [attemptOnce_congr llm llm' nm attempt (hsame attempt ham)]
    cases attemptOnce llm' nm attempt with
    | ok s => rfl
    | error e =>
      dsimp only
      by_cases hlt : attempt < mr
      · rw [dif_pos hlt, dif_pos hlt]
        exact ih (attempt + 1) (by omega) (by omega) hsame
      · rw [dif_neg hlt, dif_neg hlt]

/-- C7: `generate_story` (with a non-empty cleaned name) consults the LLM on
attempts 0 .. max_retries only; it returns the story of the first attempt
whose call succeeds and passes validation (length at least 200 and containing
the child\x27s name case-insensitively) when all earlier attempts failed, and
when every attempt fails it surfaces an error string reporting max_retries + 1
attempts and the error of the last attempt. -/
theorem generate_story_spec (llm : Nat → Except String (List Char))
    (child_name : List Char) (max_retries : Nat)
    (hname : pyTitle (pyStrip child_name) ≠ []) :
    (∀ i s, i ≤ max_retries →
      attemptOnce llm (pyTitle (pyStrip child_name)) i = .ok s →
      (∀ j, j < i → ∃ e,
        attemptOnce llm (pyTitle (pyStrip child_name)) j = .error e) →
      generate_story llm child_name max_retries = .ok s) ∧
    ((∀ j, j ≤ max_retries → ∃ e,
        attemptOnce llm (pyTitle (pyStrip child_name)) j = .error e) →
      ∃ e, attemptOnce llm (pyTitle (pyStrip child_name)) max_retries
          = .error e ∧
        generate_story llm child_name max_retries =
          .error ("Failed to generate story after "
            ++ toString (max_retries + 1) ++ " attempts: " ++ e)) ∧
    (∀ llm', (∀ j, j ≤ max_retries → llm j = llm' j) →
      generate_story llm child_name max_retries
        = generate_story llm' child_name max_retries) := by
  refine ⟨?_, ?_, ?_⟩
  · intro i s him hok hfail
    unfold generate_story
    rw [if_neg hname]
    exact genLoop_success llm (pyTitle (pyStrip child_name)) max_retries
      (max_retries + 1) 0 i s (by omega) (by omega) him hok
      (fun j _ hj2 => hfail j hj2)
  · intro hfail
    obtain ⟨e, he, hloop⟩ := genLoop_allfail llm (pyTitle (pyStrip child_name))
      max_retries (max_retries + 1) 0 (by omega) (by omega)
      (fun j _ hj2 => hfail j hj2)
    refine ⟨e, he, ?_⟩
    unfold generate_story
    rw [if_neg hname]
    exact hloop
  · intro llm' hsame
    unfold generate_story
    rw [if_neg hname]
    rw [if_neg hname]
    exact genLoop_congr llm llm' (pyTitle (pyStrip child_name)) max_retries
      (max_retries + 1) 0 (by omega) (by omega) hsame

/-- Concrete valid story used by the retry-loop witness: longer than 200
characters and containing the name Emma. -/
def sampleStoryText : List Char :=
  ("Once upon a time, Emma the brave explorer set out across the sparkling "
    ++ "river to find the hidden garden. Emma met a wise owl, a playful "
    ++ "bunny, and a gentle deer, and together they discovered the treasure "
    ++ "of friendship before heading home to rest.").toList

/-- Concrete LLM oracle: the first attempt raises, the second succeeds. -/
def sampleLlm : Nat → Except String (List Char) :=
  fun i => if i = 0 then .error "boom" else .ok sampleStoryText

/-- Witness for C7: with the sample oracle, `generate_story` retries once and
returns the story of the successful second attempt. -/
theorem generate_story_spec_witness :
    generate_story sampleLlm "Emma".toList 2 = .ok sampleStoryText := by
  have h := (generate_story_spec sampleLlm "Emma".toList 2 (by decide)).1
  refine h 1 sampleStoryText (by omega) (by rfl) ?_
  intro j hj
  have hj0 : j = 0 := by omega
  subst hj0
  exact ⟨"boom", by rfl⟩

/-! ### The request handler `generate_story_and_audio` (app.py) -/

/-- Word splitter of Python `str.split()` with no argument: maximal runs of
non-whitespace characters. -/
def pyWordsGo : List Char → List Char → List (List Char)
  | cur, [] => if cur.isEmpty then [] else [cur]
  | cur, c :: rest =>
    if isPyWs c then
      if cur.isEmpty then pyWordsGo [] rest else cur :: pyWordsGo [] rest
    else
      pyWordsGo (cur ++ [c]) rest

/-- Embedding of `len(story_text.split())`. -/
def pyWordCount (s : List Char) : Nat := (pyWordsGo [] s).length

/-- The estimated-duration string `f"{int(duration_min)} min
{int((duration_min % 1) * 60)} sec"` with `duration_min = word_count / 130`.
The Python float arithmetic is modelled by exact integer arithmetic: the
minutes floor is identical, and the seconds agree except for a possible
one-unit float-rounding deviation exactly at multiples of 1/13 of a minute,
which none of the claims depend on. -/
def duration_str (word_count : Nat) : String :=
  toString (word_count / 130) ++ " min "
    ++ toString (word_count % 130 * 60 / 130) ++ " sec"

/-- Embedding of `generate_demo_story` (demo-mode sample story). -/
def generate_demo_story (child_name theme : List Char) : List Char :=
  (("Once upon a time, in a land filled with wonder and magic, there lived "
    ++ "a brave young adventurer named " ++ String.mk child_name ++ ".\n\n"
    ++ String.mk child_name ++ " had always dreamed of going on a "
    ++ String.mk (pyLower theme) ++ " adventure. One sunny morning, "
    ++ String.mk child_name
    ++ " woke up to find a mysterious golden envelope on their pillow.\n\n"
    ++ "\"Dear " ++ String.mk child_name ++ ",\" the letter read, "
    ++ "\"You have been chosen for a special quest!\"\n\n"
    ++ "With excitement bubbling in their heart, " ++ String.mk child_name
    ++ " packed a small bag with snacks and their favorite toy. "
    ++ "The adventure was about to begin!\n\nAlong the way, "
    ++ String.mk child_name
    ++ " met friendly creatures who helped guide the path. There was a wise "
    ++ "owl who shared secrets of the forest, and a playful bunny who knew "
    ++ "all the shortcuts.\n\n\"You\x27re very brave, "
    ++ String.mk child_name
    ++ "!\" said the owl. \"Keep going, you\x27re almost there!\"\n\n"
    ++ "Finally, after climbing over mossy logs and crossing a sparkling "
    ++ "stream, " ++ String.mk child_name
    ++ " reached the treasure - a beautiful chest filled with the most "
    ++ "precious thing of all: memories of this wonderful adventure.\n\n"
    ++ "As the stars began to twinkle in the evening sky, "
    ++ String.mk child_name
    ++ " headed home, heart full of joy. Snuggling into bed, "
    ++ String.mk child_name
    ++ " closed their eyes and dreamed of tomorrow\x27s adventures.\n\n"
    ++ "The End.\n\nSweet dreams, " ++ String.mk child_name ++ ".").toList)

/-- Theme resolution: `custom_theme.strip() if theme == "Custom" else theme`. -/
def final_theme_of (theme custom_theme : List Char) : List Char :=
  if theme = "Custom".toList then pyStrip custom_theme else theme

/-- The error-message rewrite of the outer exception handler: an exception
message mentioning "API key" or "GROQ_API_KEY" is replaced by the generic
service-unavailable text. -/
def api_error_hidden (e : String) : String :=
  if (containsSub "API key".toList e.toList
      || containsSub "GROQ_API_KEY".toList e.toList) = true then
    "Service temporarily unavailable. Please try again later."
  else e

/-- The success status message
`f"Story created for {clean_name}!\n\nDuration: ~{duration_str}{demo_note}{audio_note}"`. -/
def success_status (cn story : List Char) (demo_mode : Bool)
    (audio : Option String) : String :=
  "Story created for " ++ String.mk cn ++ "!\n\nDuration: ~"
    ++ duration_str (pyWordCount story)
    ++ (if demo_mode then
          "\n\n*Demo mode - set GROQ_API_KEY for AI-generated stories*"
        else "")
    ++ (if audio.isNone then
          "\n\n*Audio generation requires edge-tts*"
        else "")

/-- Embedding of `generate_story_and_audio`.  `storyFn` stands for the story
generation step (constructing the `StoryGenerator` plus calling
`generate_story`), returning the story text or the message of the exception
it raised; `ttsFn` stands for `TTSEngine.generate_audio`, returning the audio
file path or the message of the exception it raised; `demo_mode` is the
module-level `DEMO_MODE` flag.  Returns `(story_text, audio_path,
status_message)`. -/
def generate_story_and_audio (demo_mode : Bool)
    (storyFn : List Char → String → List Char → String →
      Except String (List Char))
    (ttsFn : List Char → String → Except String String)
    (child_name : List Char) (age_group : String) (theme : List Char)
    (custom_theme : List Char) (language : String) (voice : String) :
    List Char × Option String × String :=
  if child_name = [] ∨ pyStrip child_name = [] then
    ([], none, "Please enter your child\x27s name.")
  else if clean_name child_name = [] then
    ([], none, "Please enter a valid name (letters only).")
  else if final_theme_of theme custom_theme = [] then
    ([], none, "Please select a theme or enter a custom theme.")
  else
    match (if demo_mode then
             Except.ok (generate_demo_story (clean_name child_name)
               (final_theme_of theme custom_theme))
           else
             storyFn (clean_name child_name) age_group
               (final_theme_of theme custom_theme) language) with
    | .error e => ([], none, "Oops! " ++ api_error_hidden e)
    | .ok story_text =>
      match ttsFn story_text voice with
      | .ok p =>
        (story_text, some p,
          success_status (clean_name child_name) story_text demo_mode (some p))
      | .error _ =>
        (story_text, none,
          success_status (clean_name child_name) story_text demo_mode none)

/-! ### Theorems for the error-handling claims C6 and C8 -/

/-- C6: when story generation succeeds and the text-to-speech step raises any
exception, `generate_story_and_audio` swallows it and still returns the story
text, a `None` audio path, and the success status message (with the
audio-unavailable note), not an error. -/
theorem tts_failure_swallowed
    (storyFn : List Char → String → List Char → String →
      Except String (List Char))
    (ttsFn : List Char → String → Except String String)
    (child_name theme custom_theme story : List Char)
    (age_group language voice : String) (err : String)
    (hv1 : pyStrip child_name ≠ [])
    (hv2 : clean_name child_name ≠ [])
    (hv3 : final_theme_of theme custom_theme ≠ [])
    (hstory : storyFn (clean_name child_name) age_group
      (final_theme_of theme custom_theme) language = .ok story)
    (htts : ttsFn story voice = .error err) :
    generate_story_and_audio false storyFn ttsFn child_name age_group theme
        custom_theme language voice
      = (story, none,
         success_status (clean_name child_name) story false none) := by
  have hc1 : child_name ≠ [] := by
    intro h
    apply hv1
    rw [h]
    rfl
  unfold generate_story_and_audio
  rw [if_neg (by push_neg; exact ⟨hc1, hv1⟩), if_neg hv2, if_neg hv3,
    if_neg (by simp : ¬ (false = true)), hstory]
  dsimp only
  rw [htts]

/-- Witness for C6 at concrete inputs: a failing TTS oracle still yields the
sample story with no audio and the success status. -/
theorem tts_failure_swallowed_witness :
    generate_story_and_audio false (fun _ _ _ _ => .ok sampleStoryText)
        (fun _ _ => .error "edge-tts missing") "Emma".toList "preschool"
        "Pirates & Treasure".toList "".toList "en" "en_warm_female_us"
      = (sampleStoryText, none,
         success_status (clean_name "Emma".toList) sampleStoryText false
           none) := by
  exact tts_failure_swallowed (fun _ _ _ _ => .ok sampleStoryText)
    (fun _ _ => .error "edge-tts missing") "Emma".toList
    "Pirates & Treasure".toList "".toList sampleStoryText "preschool" "en"
    "en_warm_female_us" "edge-tts missing" (by decide) (by decide) (by decide)
    rfl rfl

/-- C8: missing credentials surface as a generic service-unavailable message:
`StoryGenerator.__init__` rejects a falsy key (absent or empty, both as
argument and in the environment) with a ValueError message naming
GROQ_API_KEY, and `generate_story_and_audio` maps any story-step exception
whose message mentions "API key" or "GROQ_API_KEY" to the status message
"Oops! Service temporarily unavailable. Please try again later." with an
empty story and no audio. -/
theorem api_key_unavailable
    (api_key env_key : Option String)
    (storyFn : List Char → String → List Char → String →
      Except String (List Char))
    (ttsFn : List Char → String → Except String String)
    (child_name theme custom_theme : List Char)
    (age_group language voice : String) (e : String) :
    ((api_key = none ∨ api_key = some "") →
      (env_key = none ∨ env_key = some "") →
      StoryGenerator_init api_key env_key = .error initErrMsg ∧
      containsSub "GROQ_API_KEY".toList initErrMsg.toList = true) ∧
    (pyStrip child_name ≠ [] → clean_name child_name ≠ [] →
      final_theme_of theme custom_theme ≠ [] →
      storyFn (clean_name child_name) age_group
        (final_theme_of theme custom_theme) language = .error e →
      (containsSub "API key".toList e.toList
        || containsSub "GROQ_API_KEY".toList e.toList) = true →
      generate_story_and_audio false storyFn ttsFn child_name age_group theme
          custom_theme language voice
        = ([], none,
           "Oops! Service temporarily unavailable. Please try again later.")) := by
  constructor
  · intro hapi henv
    refine ⟨?_, by decide⟩
    rcases hapi with h | h <;> rcases henv with h2 | h2 <;>
      subst h <;> subst h2 <;> rfl
  · intro hv1 hv2 hv3 hstory hsub
    have hc1 : child_name ≠ [] := by
      intro h
      apply hv1
      rw [h]
      rfl
    unfold generate_story_and_audio
    rw [if_neg (by push_neg; exact ⟨hc1, hv1⟩), if_neg hv2, if_neg hv3,
      if_neg (by simp : ¬ (false = true)), hstory]
    dsimp only
    unfold api_error_hidden
    rw [if_pos hsub]
    rfl

/-- Witness for C8: missing key as argument and environment, and a concrete
story-step failure carrying the init error message. -/
theorem api_key_unavailable_witness :
    StoryGenerator_init none none = .error initErrMsg ∧
    generate_story_and_audio false (fun _ _ _ _ => .error initErrMsg)
        (fun _ _ => .ok "path") "Emma".toList "preschool"
        "Pirates & Treasure".toList "".toList "en" "en_warm_female_us"
      = ([], none,
         "Oops! Service temporarily unavailable. Please try again later.") := by
  have h := api_key_unavailable none none (fun _ _ _ _ => .error initErrMsg)
    (fun _ _ => .ok "path") "Emma".toList "Pirates & Treasure".toList
    "".toList "preschool" "en" "en_warm_female_us" initErrMsg
  exact ⟨(h.1 (Or.inl rfl) (Or.inl rfl)).1,
    h.2 (by decide) (by decide) (by decide) rfl (by decide)⟩
